import Mathlib

/-!
Verification development for the browser launch-configuration module
(nodriver core config: preference merging, preference application,
argument rendering, executable discovery, extension resolution).

Python strings are embedded as lists of characters (abbrev Str), Python
dicts (which preserve insertion order) as ordered association structures.
The JSON-like preference values are embedded by the mutual inductive
PVal / PObj below; PObj mirrors an insertion-ordered Python dict.
-/

/-- Embedding of a Python str as a list of characters. -/
abbrev Str := List Char

/-- Turn a Lean string literal into the Str embedding. -/
def str (x : String) : Str := x.toList

mutual
/-- A preference value: a scalar (embedded as an integer payload) or a
nested mapping.  Scalars in the source are arbitrary JSON scalars; the
claims only exercise integer scalars, so the payload is an Int. -/
inductive PVal where
  | prim : Int → PVal
  | obj : PObj → PVal
/-- An insertion-ordered string-keyed mapping (a Python dict). -/
inductive PObj where
  | nil : PObj
  | cons : Str → PVal → PObj → PObj
end

deriving instance DecidableEq for PVal
deriving instance DecidableEq for PObj

/-- Dict lookup (Python: key in d / d[key]); first matching key. -/
def getVal : PObj → Str → Option PVal
  | PObj.nil, _ => none
  | PObj.cons k v rest, key => if k = key then some v else getVal rest key

/-- Dict assignment d[key] = v: replaces the value in place when the key
is present (keeping its insertion position), appends otherwise. -/
def setKey : PObj → Str → PVal → PObj
  | PObj.nil, key, v => PObj.cons key v PObj.nil
  | PObj.cons k w rest, key, v =>
    if k = key then PObj.cons key v rest else PObj.cons k w (setKey rest key v)

/-- Python dict.update(other): assign every item of other in order. -/
def updateAll (d : PObj) : PObj → PObj
  | PObj.nil => d
  | PObj.cons k v rest => updateAll (setKey d k v) rest

mutual
/-- One merge step of deep_merge, source line
result[key] = deep_merge(result[key], value) when both sides are dicts,
result[key] = value otherwise. -/
def mergeVal : PVal → PVal → PVal
  | PVal.obj o1, PVal.obj o2 => PVal.obj (deep_merge o1 o2)
  | _, v2 => v2
/-- deep_merge(dict1, dict2) from prefs_to_json: start from dict1 and fold
the items of dict2 into it. -/
def deep_merge : PObj → PObj → PObj
  | d1, PObj.nil => d1
  | d1, PObj.cons k v rest =>
    let d1' :=
      match getVal d1 k with
      | some w => setKey d1 k (mergeVal w v)
      | none => setKey d1 k v
    deep_merge d1' rest
end

/-- undot_key from prefs_to_json: splits the key at its first dot and
recurses, building a chain of singleton dicts.  This structural version
accumulates leading non-dot characters; it agrees with splitting at the
first dot (lemma undot_key_eq_chain below). -/
def undot_key : Str → PVal → PObj
  | [], v => PObj.cons [] v PObj.nil
  | c :: rest, v =>
    if c = '.' then PObj.cons [] (PVal.obj (undot_key rest v)) PObj.nil
    else
      match undot_key rest v with
      | PObj.cons k w tail => PObj.cons (c :: k) w tail
      | PObj.nil => PObj.nil

/-- The loop of prefs_to_json: result = deep_merge(result, undot_key(k, v))
over the items of the input, starting from the given accumulator. -/
def prefs_to_json_go (result : PObj) : PObj → PObj
  | PObj.nil => result
  | PObj.cons k v rest => prefs_to_json_go (deep_merge result (undot_key k v)) rest

/-- prefs_to_json: convert dot-separated keys into nested dictionaries. -/
def prefs_to_json (dot_prefs : PObj) : PObj := prefs_to_json_go PObj.nil dot_prefs

/-- Items of a mapping, as an ordinary list (dict.items()). -/
def PObj.toList : PObj → List (Str × PVal)
  | PObj.nil => []
  | PObj.cons k v rest => (k, v) :: PObj.toList rest

/-- Whether a value is a scalar (not a nested mapping). -/
def PVal.isPrim : PVal → Bool
  | PVal.prim _ => true
  | PVal.obj _ => false

/- ------------------------------------------------------------------
Config aggregate and argument rendering (Config.__init__, __call__,
add_argument, the sorted browser_args view).
------------------------------------------------------------------- -/

/-- Embedding of the Config object: the fields assigned by __init__ that
the behaviour under study depends on.  Arbitrary extra keyword attributes
(self.__dict__.update(kwargs)) are not modelled: no specified behaviour
reads them. -/
structure Config where
  user_data_dir : Str
  custom_data_dir : Bool
  browser_executable_path : Str
  headless : Bool
  sandbox : Bool
  host : Option Str
  port : Option Int
  expert : Bool
  lang : Str
  browser_args : List Str
  extensions : List Str
  autodiscover_targets : Bool
  prefs : PObj
  prefs_applied : Bool
deriving DecidableEq

/-- The hard-coded default argument list of __init__
(self._default_browser_args). -/
def default_browser_args : List Str :=
  [ str "--remote-allow-origins=*",
    str "--no-first-run",
    str "--no-service-autorun",
    str "--no-default-browser-check",
    str "--homepage=about:blank",
    str "--no-pings",
    str "--password-store=basic",
    str "--disable-infobars",
    str "--disable-breakpad",
    str "--disable-component-update",
    str "--disable-backgrounding-occluded-windows",
    str "--disable-renderer-backgrounding",
    str "--disable-background-networking",
    str "--disable-dev-shm-usage",
    str "--disable-features=IsolateOrigins,site-per-process",
    str "--disable-session-crashed-bubble",
    str "--disable-search-engine-choice-screen" ]

/-- Config.__init__.  Parameters mirror the source; tmp_profile stands for
the fresh directory produced by temp_profile_dir() when no user data dir
is supplied, and resolved_exec for the result of find_chrome_executable()
when no executable path is supplied (both are environment inputs).
posix and root are the module-level is_posix probe and the is_root()
probe.  An empty Str plays the role of a falsy (None or empty) argument. -/
def Config.init (user_data_dir : Str) (tmp_profile : Str) (headless : Bool)
    (browser_executable_path : Str) (resolved_exec : Str)
    (browser_args : List Str) (sandbox : Bool) (lang : Str)
    (prefs : Option PObj) (host : Option Str) (port : Option Int)
    (expert : Bool) (posix : Bool) (root : Bool) : Config :=
  { user_data_dir := if user_data_dir = [] then tmp_profile else user_data_dir
    custom_data_dir := user_data_dir ≠ []
    browser_executable_path :=
      if browser_executable_path = [] then resolved_exec else browser_executable_path
    headless := headless
    sandbox := if posix && root && sandbox then false else sandbox
    host := host
    port := port
    expert := expert
    lang := lang
    browser_args := browser_args
    extensions := []
    autodiscover_targets := true
    prefs := prefs.getD PObj.nil
    prefs_applied := false }

/-- The argument list assembled by Config.__call__ (after the apply_prefs
side effect; the list itself does not depend on the preference state).
Mirrors the source line by line, including Python truthiness of host
(empty string falsy) and port (zero falsy). -/
def Config.callArgs (c : Config) : List Str :=
  let args := default_browser_args
  let args := args ++ [str "--user-data-dir=" ++ c.user_data_dir]
  let args := args ++ [str "--disable-features=IsolateOrigins,site-per-process"]
  let args := args ++ [str "--disable-session-crashed-bubble"]
  let args := if c.expert then
      args ++ [str "--disable-web-security", str "--disable-site-isolation-trials"]
    else args
  let args := if c.browser_args.isEmpty then args
    else args ++ c.browser_args.filter (fun a => !args.contains a)
  let args := if c.headless then args ++ [str "--headless=new"] else args
  let args := if !c.sandbox then args ++ [str "--no-sandbox"] else args
  let args := match c.host with
    | some h => if h.isEmpty then args else args ++ [str "--remote-debugging-host=" ++ h]
    | none => args
  let args := match c.port with
    | some p => if p = 0 then args else args ++ [str "--remote-debugging-port=" ++ str (toString p)]
    | none => args
  args

/-- The double-quote character, used in the add_argument error text. -/
def dquote : Char := Char.ofNat 34

/-- Python substring containment: needle in hay. -/
def strIncludes (needle : Str) : Str → Bool
  | [] => needle.isEmpty
  | c :: t => needle.isPrefixOf (c :: t) || strIncludes needle t

/-- Config.add_argument: reject any argument whose lowercase form contains
a reserved marker, append it to self._browser_args otherwise.  The raised
ValueError is embedded as Except.error carrying the message. -/
def Config.add_argument (c : Config) (arg : Str) : Except Str Config :=
  if [str "headless", str "data-dir", str "data_dir",
      str "no-sandbox", str "no_sandbox", str "lang"].any
      (fun x => strIncludes x (arg.map Char.toLower)) then
    Except.error (dquote :: (arg ++ dquote ::
      str " not allowed. please use one of the attributes of the Config object to set it"))
  else Except.ok { c with browser_args := c.browser_args ++ [arg] }

/-- Spec-side predicate: the lowercase form of the argument contains one
of the reserved substrings (headless, data-dir and data_dir, no-sandbox
and no_sandbox, lang). -/
def isReservedArg (arg : Str) : Bool :=
  [str "headless", str "data-dir", str "data_dir",
   str "no-sandbox", str "no_sandbox", str "lang"].any
    (fun x => strIncludes x (arg.map Char.toLower))

/- ------------------------------------------------------------------
Preference application (Config.apply_prefs) over an explicit filesystem
model.  The filesystem is a mapping from paths to parsed preference
files (some none marks a file whose JSON is malformed, so reading it
raises), plus two environment switches saying whether directory creation
and writing succeed.  Raised-and-propagated exceptions are recorded in
the raised flag of the output.
------------------------------------------------------------------- -/

/-- A filesystem operation performed by apply_prefs (attempted, whether
or not it succeeded). -/
inductive FSOp where
  | mkdir : FSOp
  | read : FSOp
  | write : FSOp
deriving DecidableEq

/-- Filesystem model for preference application. -/
structure FSState where
  files : List (Str × Option PObj)
  mkdirOk : Bool
  writeOk : Bool
deriving DecidableEq

/-- Lookup of a path in the filesystem (os.path.exists + open). -/
def FSState.getFile (fs : FSState) (p : Str) : Option (Option PObj) :=
  match fs.files.find? (fun e => e.1 = p) with
  | some e => some e.2
  | none => none

/-- Whole-file replacement of the entry at a path. -/
def setFile (files : List (Str × Option PObj)) (p : Str) (v : Option PObj) :
    List (Str × Option PObj) :=
  match files with
  | [] => [(p, v)]
  | e :: rest => if e.1 = p then (p, v) :: rest else e :: setFile rest p v

/-- os.path.join for the fixed relative components used by apply_prefs
(POSIX separator). -/
def joinPath (a b : Str) : Str :=
  if a = [] then b
  else if a.getLast? = some '/' then a ++ b
  else a ++ '/' :: b

/-- The profile preference file path <user_data_dir>/Default/Preferences. -/
def Config.prefsPath (c : Config) : Str :=
  joinPath (joinPath c.user_data_dir (str "Default")) (str "Preferences")

/-- Result of Config.apply_prefs: the updated Config and filesystem,
whether an exception propagated to the caller, and the filesystem
operations that were attempted. -/
structure ApplyOut where
  cfg : Config
  fs : FSState
  raised : Bool
  ops : List FSOp
deriving DecidableEq

/-- Config.apply_prefs.  Returns immediately when prefs is empty or the
preferences were already applied.  os.makedirs runs outside the try
block, so its failure propagates; everything inside the try (reading a
malformed existing file, writing) is caught and swallowed. -/
def Config.apply_prefs (c : Config) (fs : FSState) : ApplyOut :=
  if c.prefs = PObj.nil ∨ c.prefs_applied then ⟨c, fs, false, []⟩
  else if !fs.mkdirOk then ⟨c, fs, true, [FSOp.mkdir]⟩
  else
    let write_step := fun (existing : PObj) (ops : List FSOp) =>
      let data := prefs_to_json (updateAll existing c.prefs)
      if !fs.writeOk then ApplyOut.mk c fs false (ops ++ [FSOp.write])
      else
        ApplyOut.mk { c with prefs_applied := true }
          { fs with files := setFile fs.files c.prefsPath (some data) }
          false (ops ++ [FSOp.write])
    match fs.getFile c.prefsPath with
    | some none => ⟨c, fs, false, [FSOp.mkdir, FSOp.read]⟩
    | some (some existing) => write_step existing [FSOp.mkdir, FSOp.read]
    | none => write_step PObj.nil [FSOp.mkdir]

/-- Config.__call__: apply preferences, then assemble the argument list. -/
def Config.call (c : Config) (fs : FSState) : ApplyOut × List Str :=
  let out := Config.apply_prefs c fs
  (out, Config.callArgs out.cfg)

/- ------------------------------------------------------------------
Extension resolution (Config.add_extension).  The filesystem here is an
oracle structure: existence, file/directory kind, the recursive glob for
manifest.* entries under a directory (in pathlib rglob traversal order),
the parent of a path, and the fresh temporary directory used when an
archive is extracted.
------------------------------------------------------------------- -/

/-- Filesystem oracle for extension resolution. -/
structure ExtFS where
  path_exists : Str → Bool
  is_file : Str → Bool
  is_dir : Str → Bool
  rglob_manifest : Str → List Str
  parent : Str → Str
  extract_dir : Str

/-- Config.add_extension.  A missing path raises FileNotFoundError
(embedded as Except.error with the source message); a file is treated as
an archive extracted into a fresh temporary directory; for a directory
the loop over rglob("manifest.*") rebinds path to the parent of each
match, so the parent of the last match (or the directory itself when
there is no match) is appended. -/
def Config.add_extension (c : Config) (fs : ExtFS) (extension_path : Str) :
    Except Str Config :=
  if !fs.path_exists extension_path then
    Except.error (str "could not find anything here: " ++ extension_path)
  else if fs.is_file extension_path then
    Except.ok { c with extensions := c.extensions ++ [fs.extract_dir] }
  else if fs.is_dir extension_path then
    Except.ok { c with extensions := c.extensions ++
      [(fs.rglob_manifest extension_path).foldl (fun _cur item => fs.parent item)
        extension_path] }
  else Except.ok c

/- ------------------------------------------------------------------
Executable discovery (find_chrome_executable) with the environment
(search path entries, platform flags, Windows install roots) as input.
The platform path separator is modelled as the POSIX slash.
------------------------------------------------------------------- -/

/-- Environment input of find_chrome_executable. -/
structure Env where
  posix : Bool
  darwin : Bool
  path_dirs : List Str
  win_roots : List (Option Str)

/-- The POSIX binary basenames probed on every search-path entry. -/
def posix_subitems : List Str :=
  [ str "google-chrome", str "chromium", str "chromium-browser",
    str "chrome", str "google-chrome-stable" ]

/-- The fixed macOS application paths. -/
def darwin_extras : List Str :=
  [ str "/Applications/Google Chrome.app/Contents/MacOS/Google Chrome",
    str "/Applications/Chromium.app/Contents/MacOS/Chromium" ]

/-- The Windows install subpaths. -/
def win_subitems : List Str :=
  [ str "Google/Chrome/Application",
    str "Google/Chrome Beta/Application",
    str "Google/Chrome Canary/Application" ]

/-- Candidate construction of find_chrome_executable. -/
def build_candidates (env : Env) : List Str :=
  if env.posix then
    (env.path_dirs.flatMap (fun item =>
      posix_subitems.map (fun sub => item ++ '/' :: sub))) ++
    (if env.darwin then darwin_extras else [])
  else
    (env.win_roots.filterMap id).flatMap (fun item =>
      win_subitems.map (fun sub => item ++ '/' :: (sub ++ '/' :: str "chrome.exe")))

/-- Python min(rv, key=len): the first element of minimal length. -/
def minByLen : List Str → Str
  | [] => []
  | x :: rest => rest.foldl (fun acc b => if b.length < acc.length then b else acc) x

/-- Full split of a string on a character (Python str.split). -/
def splitChar (c : Char) : Str → List Str
  | [] => [[]]
  | d :: rest =>
    if d = c then [] :: splitChar c rest
    else
      match splitChar c rest with
      | s0 :: ss => (d :: s0) :: ss
      | [] => [[d]]

/-- Join a list of components with a separator character
(sep.join in Python). -/
def joinWith (c : Char) : List Str → Str
  | [] => []
  | [x] => x
  | x :: xs => x ++ c :: joinWith c xs

/-- posixpath.normpath: collapse repeated separators and resolve "." and
".." components, preserving the special two-slash root. -/
def normpath (path : Str) : Str :=
  if path = [] then str "."
  else
    let initial_slashes : Nat :=
      if (str "//").isPrefixOf path && !(str "///").isPrefixOf path then 2
      else if (str "/").isPrefixOf path then 1
      else 0
    let comps := splitChar '/' path
    let new_comps := comps.foldl (fun acc comp =>
      if comp = [] ∨ comp = str "." then acc
      else if comp ≠ str ".." ∨ (initial_slashes = 0 ∧ acc = []) ∨
          acc.getLast? = some (str "..") then acc ++ [comp]
      else acc.dropLast) []
    let res := List.replicate initial_slashes '/' ++ joinWith '/' new_comps
    if res = [] then str "." else res

/-- The single-quote character, used in the locator error text. -/
def squote : Char := Char.ofNat 39

/-- The FileNotFoundError message of find_chrome_executable. -/
def chromeNotFoundMsg : Str :=
  str "could not find a valid chrome browser binary. please make sure chrome is installed." ++
  str "or use the keyword argument " ++ squote ::
  (str "browser_executable_path=/path/to/your/browser" ++ squote :: str " ")

/-- Result of find_chrome_executable: a single path, the whole filtered
candidate list (return_all), or the raised FileNotFoundError message. -/
inductive LocateResult where
  | one : Str → LocateResult
  | all : List Str → LocateResult
  | err : Str → LocateResult
deriving DecidableEq

/-- find_chrome_executable: build candidates from the environment, filter
by exists-and-executable (the is_exec oracle), return them all when
requested, otherwise the shortest survivor (ties to the first
encountered) normalized by normpath, or raise when none survives.
Python truthiness: an empty winner string falls through to the raise. -/
def find_chrome_executable (env : Env) (is_exec : Str → Bool)
    (return_all : Bool) : LocateResult :=
  let rv := (build_candidates env).filter is_exec
  if return_all && !rv.isEmpty then LocateResult.all rv
  else
    let winner : Option Str :=
      if rv.length > 1 then some (minByLen rv)
      else if rv.length = 1 then rv.head?
      else none
    match winner with
    | some w => if w.isEmpty then LocateResult.err chromeNotFoundMsg
                else LocateResult.one (normpath w)
    | none => LocateResult.err chromeNotFoundMsg

/- ------------------------------------------------------------------
Spec-side definitions used to state the claims.
------------------------------------------------------------------- -/

/-- The key of a flat preference entry, split into its dot-separated
segments. -/
def segments (k : Str) : List Str := splitChar '.' k

/-- A chain of singleton mappings along the given segments, ending in the
given value. -/
def chainVal : List Str → PVal → PVal
  | [], v => v
  | k :: ks, v => PVal.obj (PObj.cons k (chainVal ks v) PObj.nil)

mutual
/-- Leaves of a nested mapping, each tagged with its full segment path,
in depth-first order. -/
def flattenSeg : PObj → List (List Str × PVal)
  | PObj.nil => []
  | PObj.cons k v rest => flattenVal k v ++ flattenSeg rest
/-- Leaves contributed by one entry of a nested mapping. -/
def flattenVal (k : Str) : PVal → List (List Str × PVal)
  | PVal.prim n => [([k], PVal.prim n)]
  | PVal.obj o => (flattenSeg o).map (fun p => (k :: p.1, p.2))
end

/-- Rejoin the leaves of a nested mapping into a flat dot-keyed list
(the left-inverse flatten operation of the spec). -/
def flatten (t : PObj) : List (Str × PVal) :=
  (flattenSeg t).map (fun p => (joinWith '.' p.1, p.2))

/-- Every value of the flat mapping is a scalar. -/
def FlatPrim (m : PObj) : Prop :=
  ∀ p ∈ PObj.toList m, PVal.isPrim p.2 = true

/-- No key of the flat mapping is a dotted prefix of another (and no two
keys coincide): the segment lists are pairwise not prefixes of each
other. -/
def NoPrefixKeys (m : PObj) : Prop :=
  (PObj.toList m).Pairwise
    (fun a b => ¬ (segments a.1 <+: segments b.1) ∧ ¬ (segments b.1 <+: segments a.1))

/-- m is the first element of minimal length in l: everything before it
is strictly longer, everything after it at least as long. -/
def FirstShortest (l : List Str) (m : Str) : Prop :=
  ∃ l1 l2, l = l1 ++ m :: l2 ∧ (∀ y ∈ l1, m.length < y.length) ∧
    (∀ y ∈ l2, m.length ≤ y.length)

/- ------------------------------------------------------------------
Concrete inputs used by counterexamples and witnesses.
------------------------------------------------------------------- -/

/-- A plain Config with a custom data directory and no extras. -/
def cfgC1 : Config :=
  { user_data_dir := str "/home/user/profile", custom_data_dir := true,
    browser_executable_path := str "/usr/bin/google-chrome",
    headless := false, sandbox := true, host := none, port := none,
    expert := false, lang := str "en-US", browser_args := [],
    extensions := [], autodiscover_targets := true,
    prefs := PObj.nil, prefs_applied := false }

/-- An empty filesystem where every operation succeeds. -/
def fsC1 : FSState := { files := [], mkdirOk := true, writeOk := true }

/-- A Config with pending preferences. -/
def cfgC2 : Config :=
  { user_data_dir := str "/home/user/profile", custom_data_dir := true,
    browser_executable_path := str "/usr/bin/google-chrome",
    headless := false, sandbox := true, host := none, port := none,
    expert := false, lang := str "en-US", browser_args := [],
    extensions := [], autodiscover_targets := true,
    prefs := PObj.cons (str "homepage") (PVal.prim 1) PObj.nil,
    prefs_applied := false }

/-- A filesystem where directory creation fails. -/
def fsC2 : FSState := { files := [], mkdirOk := false, writeOk := true }

/-- A filesystem whose existing preference file is malformed. -/
def fsC2w : FSState :=
  { files := [(str "/home/user/profile/Default/Preferences", none)],
    mkdirOk := true, writeOk := true }

/-- A Config whose preferences are already applied. -/
def cfgC4 : Config :=
  { user_data_dir := str "/home/user/profile", custom_data_dir := true,
    browser_executable_path := str "/usr/bin/google-chrome",
    headless := false, sandbox := true, host := none, port := none,
    expert := false, lang := str "en-US", browser_args := [],
    extensions := [], autodiscover_targets := true,
    prefs := PObj.cons (str "homepage") (PVal.prim 1) PObj.nil,
    prefs_applied := true }

/-- A clean filesystem for the C4 witness. -/
def fsC4 : FSState := { files := [], mkdirOk := true, writeOk := true }

/-- POSIX environment whose two search-path entries produce candidates of
lengths 20, 15, 25 among the survivors chosen by execC5. -/
def envC5 : Env :=
  { posix := true, darwin := false,
    path_dirs := [str "/a/bcd", str "/usr/local1"], win_roots := [] }

/-- Exactly three candidates exist and are executable (lengths 20, 15,
25 in discovery order). -/
def execC5 : Str → Bool := fun x =>
  x = str "/a/bcd/google-chrome" || x = str "/a/bcd/chromium" ||
  x = str "/usr/local1/google-chrome"

/-- POSIX environment whose single search-path entry ends in a slash, so
every candidate contains a doubled slash. -/
def envC5x : Env :=
  { posix := true, darwin := false, path_dirs := [str "/a/"], win_roots := [] }

/-- Only the doubled-slash chromium candidate survives the filter. -/
def execC5x : Str → Bool := fun x => x = str "/a//chromium"

/-- An extension filesystem: /d is a directory holding two manifest
matches in traversal order, under different parents. -/
def extfsC7 : ExtFS :=
  { path_exists := fun p => p = str "/d",
    is_file := fun _ => false,
    is_dir := fun p => p = str "/d",
    rglob_manifest := fun p =>
      if p = str "/d" then [str "/d/sub1/manifest.json", str "/d/sub2/manifest.txt"]
      else [],
    parent := fun q =>
      if q = str "/d/sub1/manifest.json" then str "/d/sub1"
      else if q = str "/d/sub2/manifest.txt" then str "/d/sub2"
      else [],
    extract_dir := str "/tmp/extension_ab12" }

/-- A Config with no extensions yet. -/
def cfgC7 : Config :=
  { user_data_dir := str "/home/user/profile", custom_data_dir := true,
    browser_executable_path := str "/usr/bin/google-chrome",
    headless := false, sandbox := true, host := none, port := none,
    expert := false, lang := str "en-US", browser_args := [],
    extensions := [], autodiscover_targets := true,
    prefs := PObj.nil, prefs_applied := false }

/-- A flat preference mapping with two scalar keys sharing the dotted
prefix a, neither key a dotted prefix of the other. -/
def prefsC8 : PObj :=
  PObj.cons (str "a.b") (PVal.prim 1) (PObj.cons (str "a.c") (PVal.prim 2) PObj.nil)

/-- The Config of the fresh-profile preference scenario. -/
def cfgC9 : Config :=
  { user_data_dir := str "/home/user/profile", custom_data_dir := true,
    browser_executable_path := str "/usr/bin/google-chrome",
    headless := false, sandbox := true, host := none, port := none,
    expert := false, lang := str "en-US", browser_args := [],
    extensions := [], autodiscover_targets := true,
    prefs := PObj.cons (str "profile.default_content_setting_values.images")
      (PVal.prim 2) PObj.nil,
    prefs_applied := false }

/-- A fresh filesystem: no preference file exists, all operations
succeed. -/
def fsC9 : FSState := { files := [], mkdirOk := true, writeOk := true }

/- ==================================================================
Theorems.
================================================================== -/

/-- Claim C3: prefs_to_json converts dot-separated flat keys into a
nested mapping with deep-merge semantics: an empty input yields an empty
mapping; toNestedTree of a.b.c and a.b.d unions the children recursively
into a single nested tree; a later scalar overwrites an existing nested
mapping at the same path outright, and a later nested mapping overwrites
an existing scalar outright (shown both as the general one-key merge
equations and on concrete colliding inputs). -/
theorem C3_prefs_to_json_nested :
    prefs_to_json PObj.nil = PObj.nil ∧
    prefs_to_json (PObj.cons (str "a.b.c") (PVal.prim 1)
        (PObj.cons (str "a.b.d") (PVal.prim 2) PObj.nil)) =
      PObj.cons (str "a") (PVal.obj (PObj.cons (str "b")
        (PVal.obj (PObj.cons (str "c") (PVal.prim 1)
          (PObj.cons (str "d") (PVal.prim 2) PObj.nil))) PObj.nil)) PObj.nil ∧
    prefs_to_json (PObj.cons (str "a.b") (PVal.prim 1)
        (PObj.cons (str "a.b.c") (PVal.prim 2) PObj.nil)) =
      PObj.cons (str "a") (PVal.obj (PObj.cons (str "b")
        (PVal.obj (PObj.cons (str "c") (PVal.prim 2) PObj.nil)) PObj.nil)) PObj.nil ∧
    prefs_to_json (PObj.cons (str "a.b.c") (PVal.prim 1)
        (PObj.cons (str "a.b") (PVal.prim 2) PObj.nil)) =
      PObj.cons (str "a") (PVal.obj (PObj.cons (str "b") (PVal.prim 2) PObj.nil))
        PObj.nil ∧
    (∀ (d : PObj) (k : Str) (n : Int),
      deep_merge d (PObj.cons k (PVal.prim n) PObj.nil) = setKey d k (PVal.prim n)) ∧
    (∀ (d : PObj) (k : Str) (o2 : PObj),
      deep_merge d (PObj.cons k (PVal.obj o2) PObj.nil) =
        match getVal d k with
        | some (PVal.obj o1) => setKey d k (PVal.obj (deep_merge o1 o2))
        | some (PVal.prim _) => setKey d k (PVal.obj o2)
        | none => setKey d k (PVal.obj o2)) := by
  refine ⟨rfl, by decide, by decide, by decide, ?_, ?_⟩
  · intro d k n
    simp only [deep_merge]
    rcases h : getVal d k with - | w
    · simp
    · cases w <;> simp [mergeVal]
  · intro d k o2
    simp only [deep_merge]
    rcases h : getVal d k with - | w
    · simp
    · cases w <;> simp [mergeVal]

/-- Two strings differing at an index inside the left part of an append
are different. -/
lemma ne_of_getElem2 (p q r : Str) (i : Nat) (h1 : i < p.length)
    (h2 : p[i]? ≠ q[i]?) : p ++ r ≠ q := by
  intro he
  apply h2
  rw [← he, List.getElem?_append, if_pos h1]

/-- A string already present in the base list never survives the
not-already-contained filter, so it is not counted there. -/
lemma count_filter_not_in_base (t : Str) (base l : List Str) (ht : t ∈ base) :
    List.count t (l.filter (fun a => !base.contains a)) = 0 := by
  rw [List.count_eq_zero]
  intro hmem
  rcases List.mem_filter.mp hmem with ⟨-, hpred⟩
  have h1 : base.contains t = true := by
    simpa [List.contains] using List.elem_iff.mpr ht
  rw [h1] at hpred
  simp at hpred

set_option maxHeartbeats 1000000 in
/-- The origin-isolation-disabling flag occurs exactly twice in every
rendered argument list. -/
lemma callArgs_count_iso (c : Config) :
    List.count (str "--disable-features=IsolateOrigins,site-per-process")
      (Config.callArgs c) = 2 := by
  have hud : ∀ u : Str, str "--user-data-dir=" ++ u ≠
      str "--disable-features=IsolateOrigins,site-per-process" :=
    fun u => ne_of_getElem2 _ _ _ 2 (by decide) (by decide)
  have hhost : ∀ h : Str, str "--remote-debugging-host=" ++ h ≠
      str "--disable-features=IsolateOrigins,site-per-process" :=
    fun h => ne_of_getElem2 _ _ _ 2 (by decide) (by decide)
  have hport : ∀ p : Int, str "--remote-debugging-port=" ++ str (toString p) ≠
      str "--disable-features=IsolateOrigins,site-per-process" :=
    fun p => ne_of_getElem2 _ _ _ 2 (by decide) (by decide)
  have hdef : List.count (str "--disable-features=IsolateOrigins,site-per-process")
      default_browser_args = 1 := by decide
  have hws : str "--disable-web-security" ≠
      str "--disable-features=IsolateOrigins,site-per-process" := by decide
  have hsi : str "--disable-site-isolation-trials" ≠
      str "--disable-features=IsolateOrigins,site-per-process" := by decide
  have hhl : str "--headless=new" ≠
      str "--disable-features=IsolateOrigins,site-per-process" := by decide
  have hns : str "--no-sandbox" ≠
      str "--disable-features=IsolateOrigins,site-per-process" := by decide
  have hbub : str "--disable-session-crashed-bubble" ≠
      str "--disable-features=IsolateOrigins,site-per-process" := by decide
  simp only [Config.callArgs]
  repeat' split
  all_goals
    simp only [List.count_append, count_filter_not_in_base, List.mem_append,
      List.mem_cons, List.mem_singleton, List.not_mem_nil, eq_self_iff_true,
      or_true, true_or, or_false, false_or]
  all_goals
    simp [List.count_cons, List.count_nil, List.count_singleton', beq_iff_eq,
      hdef, hud, hhost, hport, hws, hsi, hhl, hns, hbub]

set_option maxHeartbeats 1000000 in
/-- The crash-bubble-disabling flag occurs exactly twice in every
rendered argument list. -/
lemma callArgs_count_bubble (c : Config) :
    List.count (str "--disable-session-crashed-bubble")
      (Config.callArgs c) = 2 := by
  have hud : ∀ u : Str, str "--user-data-dir=" ++ u ≠
      str "--disable-session-crashed-bubble" :=
    fun u => ne_of_getElem2 _ _ _ 2 (by decide) (by decide)
  have hhost : ∀ h : Str, str "--remote-debugging-host=" ++ h ≠
      str "--disable-session-crashed-bubble" :=
    fun h => ne_of_getElem2 _ _ _ 2 (by decide) (by decide)
  have hport : ∀ p : Int, str "--remote-debugging-port=" ++ str (toString p) ≠
      str "--disable-session-crashed-bubble" :=
    fun p => ne_of_getElem2 _ _ _ 2 (by decide) (by decide)
  have hdef : List.count (str "--disable-session-crashed-bubble")
      default_browser_args = 1 := by decide
  have hws : str "--disable-web-security" ≠
      str "--disable-session-crashed-bubble" := by decide
  have hsi : str "--disable-site-isolation-trials" ≠
      str "--disable-session-crashed-bubble" := by decide
  have hhl : str "--headless=new" ≠
      str "--disable-session-crashed-bubble" := by decide
  have hns : str "--no-sandbox" ≠
      str "--disable-session-crashed-bubble" := by decide
  have hiso : str "--disable-features=IsolateOrigins,site-per-process" ≠
      str "--disable-session-crashed-bubble" := by decide
  simp only [Config.callArgs]
  repeat' split
  all_goals
    simp only [List.count_append, count_filter_not_in_base, List.mem_append,
      List.mem_cons, List.mem_singleton, List.not_mem_nil, eq_self_iff_true,
      or_true, true_or, or_false, false_or]
  all_goals
    simp [List.count_cons, List.count_nil, List.count_singleton', beq_iff_eq,
      hdef, hud, hhost, hport, hws, hsi, hhl, hns, hiso]

/-- Claim C1, counterexample: for a plain Config (defaults, no extra
arguments) the argument list returned by Config.__call__ is not
duplicate-free: the re-appended origin-isolation-disabling and
crash-bubble-disabling flags are never deduplicated. -/
theorem C1_counterexample : ¬ ((Config.call cfgC1 fsC1).2.Nodup) := by decide

/-- Claim C1 as amended: the final assembly step does not deduplicate
the re-appended flags; in every rendered argument list the
origin-isolation-disabling flag and the crash-bubble-disabling flag each
occur exactly twice (extra arguments are appended only when not already
present, so they never add further copies of these two flags). -/
theorem C1_rendered_args_flag_counts (c : Config) (fs : FSState) :
    List.count (str "--disable-features=IsolateOrigins,site-per-process")
      (Config.call c fs).2 = 2 ∧
    List.count (str "--disable-session-crashed-bubble")
      (Config.call c fs).2 = 2 :=
  ⟨callArgs_count_iso _, callArgs_count_bubble _⟩

/-- apply_prefs returns immediately, unchanged and without touching the
filesystem, once the preferences are marked applied. -/
lemma apply_prefs_noop (c : Config) (fs : FSState) (h : c.prefs_applied = true) :
    Config.apply_prefs c fs = ⟨c, fs, false, []⟩ := by
  simp [Config.apply_prefs, h]

/-- Claim C4: the preferencesApplied flag never reverts, and once it is
true apply_prefs is an exact no-op: the Config, the filesystem (hence
the on-disk preference file content) are unchanged, nothing is raised,
and no filesystem operation is attempted.  In particular a second call
after a successful first application performs no read and no write, and
calling apply_prefs twice leaves the same on-disk content as calling it
once. -/
theorem C4_apply_prefs_once (c : Config) (fs : FSState) :
    (c.prefs_applied = true → Config.apply_prefs c fs = ⟨c, fs, false, []⟩) ∧
    ((Config.apply_prefs c fs).cfg.prefs_applied = true →
      Config.apply_prefs (Config.apply_prefs c fs).cfg (Config.apply_prefs c fs).fs =
        ⟨(Config.apply_prefs c fs).cfg, (Config.apply_prefs c fs).fs, false, []⟩) :=
  ⟨fun h => apply_prefs_noop c fs h, fun h => apply_prefs_noop _ _ h⟩

/-- Claim C4, witness: a concrete applied Config for which apply_prefs is
the identity. -/
theorem C4_witness : Config.apply_prefs cfgC4 fsC4 = ⟨cfgC4, fsC4, false, []⟩ :=
  (C4_apply_prefs_once cfgC4 fsC4).1 rfl

/-- Claim C2, counterexample: with pending non-empty preferences, a
failure of directory creation (os.makedirs runs before the try block)
propagates out of apply_prefs, so apply_prefs does raise to its caller. -/
theorem C2_counterexample :
    cfgC2.prefs ≠ PObj.nil ∧ cfgC2.prefs_applied = false ∧
    (Config.apply_prefs cfgC2 fsC2).raised = true :=
  ⟨by decide, rfl, by decide⟩

/-- Claim C2 as amended: failures inside the try block (reading a
malformed existing preference file, writing) are caught and swallowed:
apply_prefs does not raise and the Config stays in its previous
preference state with the filesystem untouched.  A directory-creation
failure, however, happens before the try block and propagates to the
caller (with Config and filesystem unchanged). -/
theorem C2_best_effort_inside_try (c : Config) (fs : FSState) :
    (fs.mkdirOk = true → (Config.apply_prefs c fs).raised = false) ∧
    (fs.mkdirOk = true →
      (FSState.getFile fs c.prefsPath = some none ∨ fs.writeOk = false) →
      (Config.apply_prefs c fs).cfg.prefs_applied = c.prefs_applied ∧
      (Config.apply_prefs c fs).fs = fs) ∧
    (fs.mkdirOk = false → c.prefs ≠ PObj.nil → c.prefs_applied = false →
      (Config.apply_prefs c fs).raised = true ∧
      (Config.apply_prefs c fs).cfg = c ∧ (Config.apply_prefs c fs).fs = fs) := by
  refine ⟨?_, ?_, ?_⟩
  · intro hmk
    simp only [Config.apply_prefs, hmk, Bool.not_true]
    repeat' split
    all_goals simp_all
  · intro hmk hfail
    by_cases h0 : c.prefs = PObj.nil ∨ c.prefs_applied = true
    · simp [Config.apply_prefs, h0]
    · rcases hfail with hgf | hw
      · simp [Config.apply_prefs, h0, hmk, hgf]
      · simp only [Config.apply_prefs, h0, hmk, hw, Bool.not_true, Bool.not_false,
          if_false, if_true]
        repeat' split
        all_goals simp
  · intro hmk hne hna
    simp [Config.apply_prefs, hne, hna, hmk]

/-- Claim C2, witness: a malformed existing preference file is swallowed:
nothing is raised and the Config stays unapplied. -/
theorem C2_witness :
    (Config.apply_prefs cfgC2 fsC2w).raised = false ∧
    (Config.apply_prefs cfgC2 fsC2w).cfg.prefs_applied = false := by
  have h := C2_best_effort_inside_try cfgC2 fsC2w
  exact ⟨h.1 rfl, ((h.2.1 rfl (Or.inl (by decide))).1).trans rfl⟩

/-- Folding a keep-last replacement over a list yields the image of its
last element, or the start value when the list is empty. -/
lemma foldl_replace_getLast (f : Str → Str) :
    ∀ (l : List Str) (init : Str),
      l.foldl (fun _cur item => f item) init = (l.getLast?).elim init f := by
  intro l
  induction l with
  | nil => intro init; rfl
  | cons a t ih =>
    intro init
    rw [List.foldl_cons, ih]
    cases t <;> simp [List.getLast?]

/-- Claim C6, counterexample: the constructor stores caller-supplied
browser_args without validation, so a Config fresh out of __init__ can
hold an extra argument whose lowercase form contains the reserved
headless marker: construction is a path that introduces reserved
values. -/
theorem C6_counterexample :
    (Config.init (str "/data") (str "/tmp/uc_1") false
      (str "/usr/bin/google-chrome") (str "/usr/bin/google-chrome")
      [str "--headless=new"] true (str "en-US") none none none false true
      false).browser_args = [str "--headless=new"] ∧
    isReservedArg (str "--headless=new") = true :=
  ⟨rfl, by decide⟩

/-- Claim C6 as amended: add_argument rejects with a ValueError any value
whose lowercase form contains a reserved substring (headless, data-dir,
data_dir, no-sandbox, no_sandbox, lang) and appends any other value to
extraArguments; but the constructor stores the caller-supplied
browser_args list without this validation, so construction can introduce
reserved values. -/
theorem C6_add_argument_guard (c : Config) (arg : Str) (user_data_dir
    tmp_profile browser_executable_path resolved_exec lang : Str)
    (headless sandbox expert posix root : Bool) (browser_args : List Str)
    (prefs : Option PObj) (host : Option Str) (port : Option Int) :
    (isReservedArg arg = true → Config.add_argument c arg = Except.error
      (dquote :: (arg ++ dquote ::
        str " not allowed. please use one of the attributes of the Config object to set it"))) ∧
    (isReservedArg arg = false → Config.add_argument c arg =
      Except.ok { c with browser_args := c.browser_args ++ [arg] }) ∧
    (Config.init user_data_dir tmp_profile headless browser_executable_path
      resolved_exec browser_args sandbox lang prefs host port expert posix
      root).browser_args = browser_args := by
  refine ⟨?_, ?_, rfl⟩
  · intro h
    simp only [isReservedArg] at h
    simp only [Config.add_argument]
    rw [if_pos h]
  · intro h
    simp only [isReservedArg] at h
    simp only [Config.add_argument]
    rw [if_neg]
    simp [h]

/-- Claim C6, witness: the guard fires on the headless flag and lets a
custom flag through. -/
theorem C6_witness :
    Config.add_argument cfgC7 (str "--headless=new") = Except.error
      (dquote :: (str "--headless=new" ++ dquote ::
        str " not allowed. please use one of the attributes of the Config object to set it")) ∧
    Config.add_argument cfgC7 (str "--custom-flag=1") =
      Except.ok { cfgC7 with browser_args := cfgC7.browser_args ++ [str "--custom-flag=1"] } :=
  ⟨(C6_add_argument_guard cfgC7 (str "--headless=new") [] [] [] [] []
      false false false false false [] none none none).1 (by decide),
   (C6_add_argument_guard cfgC7 (str "--custom-flag=1") [] [] [] [] []
      false false false false false [] none none none).2.1 (by decide)⟩

/-- Claim C7, counterexample: /d holds two manifest matches under
different parents; add_extension appends the parent of the last match in
traversal order, not the parent of the first match. -/
theorem C7_counterexample :
    extfsC7.rglob_manifest (str "/d") =
      [str "/d/sub1/manifest.json", str "/d/sub2/manifest.txt"] ∧
    extfsC7.parent (str "/d/sub1/manifest.json") = str "/d/sub1" ∧
    Config.add_extension cfgC7 extfsC7 (str "/d") =
      Except.ok { cfgC7 with extensions := [str "/d/sub2"] } ∧
    str "/d/sub2" ≠ str "/d/sub1" :=
  ⟨rfl, rfl, rfl, by decide⟩

/-- Claim C7 as amended: a non-existent path fails with the
FileNotFoundError message and no mutation; for an existing directory the
appended result is the parent directory of the last manifest.* match in
traversal order (the directory itself when there is no match). -/
theorem C7_add_extension_resolution (c : Config) (fs : ExtFS) (p : Str) :
    (fs.path_exists p = false → Config.add_extension c fs p =
      Except.error (str "could not find anything here: " ++ p)) ∧
    (fs.path_exists p = true → fs.is_file p = false → fs.is_dir p = true →
      Config.add_extension c fs p = Except.ok { c with extensions :=
        c.extensions ++ [((fs.rglob_manifest p).getLast?).elim p fs.parent] }) := by
  constructor
  · intro h
    simp [Config.add_extension, h]
  · intro h1 h2 h3
    simp [Config.add_extension, h1, h2, h3, foldl_replace_getLast]

/-- Claim C7, witness: the error case on a missing path and the directory
case resolving to the last manifest parent. -/
theorem C7_witness :
    Config.add_extension cfgC7 extfsC7 (str "/missing") =
      Except.error (str "could not find anything here: " ++ str "/missing") ∧
    Config.add_extension cfgC7 extfsC7 (str "/d") =
      Except.ok { cfgC7 with extensions := cfgC7.extensions ++
        [((extfsC7.rglob_manifest (str "/d")).getLast?).elim (str "/d") extfsC7.parent] } :=
  ⟨(C7_add_extension_resolution cfgC7 extfsC7 (str "/missing")).1 (by decide),
   (C7_add_extension_resolution cfgC7 extfsC7 (str "/d")).2 (by decide)
     (by decide) (by decide)⟩

/-- Claim C10: on a POSIX platform with the process running as root, the
constructor forces sandbox to false whatever the caller passed, and the
rendered argument list of such a Config contains the no-sandbox flag. -/
theorem C10_root_posix_forces_no_sandbox (user_data_dir tmp_profile
    browser_executable_path resolved_exec lang : Str)
    (headless sandbox expert : Bool) (browser_args : List Str)
    (prefs : Option PObj) (host : Option Str) (port : Option Int)
    (posix root : Bool) (hposix : posix = true) (hroot : root = true) :
    (Config.init user_data_dir tmp_profile headless browser_executable_path
      resolved_exec browser_args sandbox lang prefs host port expert posix
      root).sandbox = false ∧
    str "--no-sandbox" ∈ Config.callArgs (Config.init user_data_dir
      tmp_profile headless browser_executable_path resolved_exec browser_args
      sandbox lang prefs host port expert posix root) := by
  subst hposix hroot
  have hsb : (Config.init user_data_dir tmp_profile headless
      browser_executable_path resolved_exec browser_args sandbox lang prefs
      host port expert true true).sandbox = false := by
    simp only [Config.init]
    cases sandbox <;> simp
  refine ⟨hsb, ?_⟩
  simp only [Config.callArgs, hsb, Bool.not_false, if_true]
  repeat' split
  all_goals simp [List.mem_append]

/-- Claim C10, witness: a concrete root POSIX construction with
sandbox requested true still renders the no-sandbox flag. -/
theorem C10_witness :
    (Config.init (str "/data") (str "/tmp/uc_2") false
      (str "/usr/bin/google-chrome") (str "/usr/bin/google-chrome") [] true
      (str "en-US") none none none false true true).sandbox = false ∧
    str "--no-sandbox" ∈ Config.callArgs (Config.init (str "/data")
      (str "/tmp/uc_2") false (str "/usr/bin/google-chrome")
      (str "/usr/bin/google-chrome") [] true (str "en-US") none none none
      false true true) :=
  C10_root_posix_forces_no_sandbox (str "/data") (str "/tmp/uc_2")
    (str "/usr/bin/google-chrome") (str "/usr/bin/google-chrome")
    (str "en-US") false true false [] none none none true true rfl rfl

/-- The Python min(rv, key=len) fold returns the first element of
minimal length among the start value and the folded list. -/
lemma foldl_min_firstShortest :
    ∀ (rest : List Str) (acc : Str),
      FirstShortest (acc :: rest)
        (rest.foldl (fun a b => if b.length < a.length then b else a) acc) := by
  intro rest
  induction rest with
  | nil =>
    intro acc
    exact ⟨[], [], rfl, by simp, by simp⟩
  | cons b rest ih =>
    intro acc
    simp only [List.foldl_cons]
    by_cases hb : b.length < acc.length
    · rw [if_pos hb]
      rcases ih b with ⟨l1, l2, heq, h1, h2⟩
      generalize hm : List.foldl (fun a b => if b.length < a.length then b else a)
        b rest = m at heq h1 h2 ⊢
      refine ⟨acc :: l1, l2, by rw [List.cons_append, ← heq], ?_, h2⟩
      intro y hy
      rcases List.mem_cons.mp hy with rfl | hy
      · have hmb : m.length ≤ b.length := by
          cases l1 with
          | nil =>
            injection heq with h3 h4
            rw [h3]
          | cons a l1 =>
            injection heq with h3 h4
            rw [h3]
            exact le_of_lt (h1 a (List.mem_cons_self a l1))
        exact lt_of_le_of_lt hmb hb
      · exact h1 y hy
    · rw [if_neg hb]
      have hba : acc.length ≤ b.length := Nat.le_of_not_lt hb
      rcases ih acc with ⟨l1, l2, heq, h1, h2⟩
      generalize hm : List.foldl (fun a b => if b.length < a.length then b else a)
        acc rest = m at heq h1 h2 ⊢
      cases l1 with
      | nil =>
        injection heq with ham hrl
        subst hrl
        refine ⟨[], b :: rest, by rw [List.nil_append, ham], by simp, ?_⟩
        intro y hy
        rcases List.mem_cons.mp hy with rfl | hy
        · rw [← ham]
          exact hba
        · exact h2 y hy
      | cons a l1 =>
        injection heq with haa hrl
        subst hrl
        subst haa
        refine ⟨acc :: b :: l1, l2, by simp, ?_, h2⟩
        intro y hy
        have hma : m.length < acc.length := h1 acc (List.mem_cons_self acc l1)
        rcases List.mem_cons.mp hy with rfl | hy
        · exact hma
        · rcases List.mem_cons.mp hy with rfl | hy
          · exact lt_of_lt_of_le hma hba
          · exact h1 y (List.mem_cons_of_mem acc hy)

/-- minByLen of a non-empty list is its first shortest element. -/
lemma minByLen_spec (l : List Str) (h : l ≠ []) : FirstShortest l (minByLen l) := by
  cases l with
  | nil => exact absurd rfl h
  | cons x rest => exact foldl_min_firstShortest rest x

/-- A first-shortest element belongs to the list. -/
lemma FirstShortest.mem {l : List Str} {m : Str} (h : FirstShortest l m) : m ∈ l := by
  rcases h with ⟨l1, l2, rfl, -, -⟩
  exact List.mem_append_right _ (List.mem_cons_self _ _)

/-- Every constructed executable candidate is a non-empty string. -/
lemma build_candidates_ne_nil (env : Env) : ∀ c ∈ build_candidates env, c ≠ [] := by
  intro c hc
  simp only [build_candidates] at hc
  split at hc
  · rcases List.mem_append.mp hc with h | h
    · rcases List.mem_flatMap.mp h with ⟨item, -, hm⟩
      rcases List.mem_map.mp hm with ⟨sub, -, rfl⟩
      simp
    · split at h
      · simp only [darwin_extras, List.mem_cons, List.not_mem_nil, or_false] at h
        rcases h with rfl | rfl <;> decide
      · cases h
  · rcases List.mem_flatMap.mp hc with ⟨item, -, hm⟩
    rcases List.mem_map.mp hm with ⟨sub, -, rfl⟩
    simp

/-- Claim C5 as amended: with returnAll false, when several candidates
survive the exists-and-executable filter, find_chrome_executable returns
the path-normalized form (os.path.normpath) of the first shortest
survivor (shortest length, ties to the first encountered); when exactly
one survives it returns its normalized form; when none survives it fails
with the FileNotFoundError whose message names the
browser_executable_path keyword argument to supply an explicit path. -/
theorem C5_locator_selection (env : Env) (is_exec : Str → Bool) :
    (1 < ((build_candidates env).filter is_exec).length →
      find_chrome_executable env is_exec false =
        LocateResult.one (normpath (minByLen ((build_candidates env).filter is_exec))) ∧
      FirstShortest ((build_candidates env).filter is_exec)
        (minByLen ((build_candidates env).filter is_exec))) ∧
    (∀ x, (build_candidates env).filter is_exec = [x] →
      find_chrome_executable env is_exec false = LocateResult.one (normpath x)) ∧
    ((build_candidates env).filter is_exec = [] →
      find_chrome_executable env is_exec false = LocateResult.err chromeNotFoundMsg) ∧
    strIncludes (str "browser_executable_path=") chromeNotFoundMsg = true := by
  refine ⟨?_, ?_, ?_, by decide⟩
  · intro h1
    have hne : (build_candidates env).filter is_exec ≠ [] :=
      List.ne_nil_of_length_pos (by omega)
    have hspec := minByLen_spec _ hne
    have hnn : minByLen ((build_candidates env).filter is_exec) ≠ [] :=
      build_candidates_ne_nil env _ (List.mem_of_mem_filter hspec.mem)
    have hie : (minByLen ((build_candidates env).filter is_exec)).isEmpty = false :=
      List.isEmpty_eq_false.mpr hnn
    exact ⟨by simp [find_chrome_executable, h1, hie], hspec⟩
  · intro x hx
    have hnn : x ≠ [] := build_candidates_ne_nil env x
      (List.mem_of_mem_filter (hx ▸ List.mem_cons_self x []))
    have hie : x.isEmpty = false := List.isEmpty_eq_false.mpr hnn
    simp [find_chrome_executable, hx, hie]
  · intro hx
    simp [find_chrome_executable, hx]

/-- Claim C5, counterexample: with a search-path entry ending in a slash,
the single surviving candidate contains a doubled slash, and the
returned path is its normalized form, which is not the candidate
itself. -/
theorem C5_counterexample :
    (build_candidates envC5x).filter execC5x = [str "/a//chromium"] ∧
    find_chrome_executable envC5x execC5x false =
      LocateResult.one (str "/a/chromium") ∧
    LocateResult.one (str "/a//chromium") ≠
      find_chrome_executable envC5x execC5x false :=
  ⟨rfl, rfl, by decide⟩

/-- Claim C5, witness: three surviving candidates of path lengths 20, 15,
25 in discovery order; the one of length 15 is returned. -/
theorem C5_witness :
    find_chrome_executable envC5 execC5 false =
      LocateResult.one (str "/a/bcd/chromium") ∧
    ((build_candidates envC5).filter execC5).map List.length = [20, 15, 25] :=
  ⟨((C5_locator_selection envC5 execC5).1 (by decide)).1.trans rfl, by decide⟩

/-- Claim C9: for a fresh user data dir with no existing preference file,
apply_prefs on a Config whose preferences hold the single flat key
profile.default_content_setting_values.images with value 2 writes the
file user_data_dir/Default/Preferences containing the fully nested tree,
marks the preferences applied, and raises nothing. -/
theorem C9_fresh_profile_prefs_written :
    (Config.apply_prefs cfgC9 fsC9).fs.files =
      [(str "/home/user/profile/Default/Preferences",
        some (PObj.cons (str "profile")
          (PVal.obj (PObj.cons (str "default_content_setting_values")
            (PVal.obj (PObj.cons (str "images") (PVal.prim 2) PObj.nil))
            PObj.nil)) PObj.nil))] ∧
    (Config.apply_prefs cfgC9 fsC9).cfg.prefs_applied = true ∧
    (Config.apply_prefs cfgC9 fsC9).raised = false := by
  refine ⟨by decide, by decide, by decide⟩

/-- Structural induction for PObj alone (the mutual recursor needs no
motive on values here: recursion never descends into them). -/
theorem PObj.inductionOn {motive : PObj → Prop} (nil : motive PObj.nil)
    (cons : ∀ k v rest, motive rest → motive (PObj.cons k v rest)) :
    ∀ t, motive t
  | PObj.nil => nil
  | PObj.cons k v rest => cons k v rest (PObj.inductionOn nil cons rest)

/-- A full character split never returns the empty list of components. -/
lemma splitChar_ne_nil : ∀ (c : Char) (s : Str), splitChar c s ≠ [] := by
  intro c s
  induction s with
  | nil => simp [splitChar]
  | cons d rest ih =>
    by_cases hd : d = c
    · simp [splitChar, hd]
    · simp only [splitChar, if_neg hd]
      rcases h : splitChar c rest with - | ⟨s0, ss⟩
      · simp
      · simp

/-- Merging a single-entry mapping unfolds to one keyed assignment. -/
lemma deep_merge_single (t : PObj) (k : Str) (v : PVal) :
    deep_merge t (PObj.cons k v PObj.nil) =
      match getVal t k with
      | some w => setKey t k (mergeVal w v)
      | none => setKey t k v := rfl

/-- undot_key builds the chain of singleton mappings along the dot
segments of the key. -/
lemma undot_key_eq_chain : ∀ (k : Str) (v : PVal) (hd : Str) (tl : List Str),
    segments k = hd :: tl →
    undot_key k v = PObj.cons hd (chainVal tl v) PObj.nil := by
  intro k
  induction k with
  | nil =>
    intro v hd tl h
    simp only [segments, splitChar] at h
    injection h with h1 h2
    rw [← h1, ← h2]
    rfl
  | cons c rest ih =>
    intro v hd tl h
    simp only [segments, splitChar] at h
    by_cases hc : c = '.'
    · rw [if_pos hc] at h
      injection h with h1 h2
      subst h1
      subst h2
      simp only [undot_key, if_pos hc]
      rcases hr : splitChar '.' rest with - | ⟨hd2, tl2⟩
      · exact absurd hr (splitChar_ne_nil _ _)
      · simp only [chainVal]
        rw [ih v hd2 tl2 (by simpa [segments] using hr)]
    · rw [if_neg hc] at h
      rcases hr : splitChar '.' rest with - | ⟨s0, ss⟩
      · exact absurd hr (splitChar_ne_nil _ _)
      · rw [hr] at h
        injection h with h1 h2
        subst h1
        subst h2
        simp only [undot_key, if_neg hc]
        rw [ih v s0 ss (by simpa [segments] using hr)]

/-- The leaves of a chain of singleton mappings: exactly one leaf at the
full segment path. -/
lemma flattenVal_chainVal : ∀ (tl : List Str) (h : Str) (n : Int),
    flattenVal h (chainVal tl (PVal.prim n)) = [(h :: tl, PVal.prim n)] := by
  intro tl
  induction tl with
  | nil =>
    intro h n
    rfl
  | cons s tl ih =>
    intro h n
    simp only [chainVal, flattenVal, flattenSeg, ih, List.append_nil, List.map]

/-- Assigning a fresh key appends its leaves at the end. -/
lemma flattenSeg_setKey_none : ∀ (t : PObj) (k : Str) (v : PVal),
    getVal t k = none →
    flattenSeg (setKey t k v) = flattenSeg t ++ flattenVal k v := by
  intro t
  induction t using PObj.inductionOn with
  | nil =>
    intro k v h
    simp [setKey, flattenSeg]
  | cons k2 v2 rest ih =>
    intro k v h
    by_cases hk : k2 = k
    · simp [getVal, hk] at h
    · simp only [getVal, if_neg hk] at h
      simp only [setKey, if_neg hk, flattenSeg, ih k v h, List.append_assoc]

/-- Assigning a present key replaces its leaves in place: the flattening
splits into a fixed prefix and suffix around the entry. -/
lemma flattenSeg_setKey_some : ∀ (t : PObj) (k : Str) (w : PVal),
    getVal t k = some w →
    ∃ F1 F2, flattenSeg t = F1 ++ (flattenVal k w ++ F2) ∧
      ∀ u, flattenSeg (setKey t k u) = F1 ++ (flattenVal k u ++ F2) := by
  intro t
  induction t using PObj.inductionOn with
  | nil =>
    intro k w h
    simp [getVal] at h
  | cons k2 v2 rest ih =>
    intro k w h
    by_cases hk : k2 = k
    · subst hk
      simp only [getVal, if_pos rfl] at h
      injection h with h1
      subst h1
      exact ⟨[], flattenSeg rest, by simp [flattenSeg],
        fun u => by simp [setKey, flattenSeg]⟩
    · simp only [getVal, if_neg hk] at h
      rcases ih k w h with ⟨F1, F2, h1, h2⟩
      refine ⟨flattenVal k2 v2 ++ F1, F2, ?_, fun u => ?_⟩
      · simp [flattenSeg, h1, List.append_assoc]
      · simp [setKey, if_neg hk, flattenSeg, h2 u, List.append_assoc]

/-- Moving a late singleton out of the middle of an append. -/
lemma perm_middle_snoc {α : Type} (F1 F2 X Y : List α) (e : α)
    (h : X.Perm (Y ++ [e])) :
    (F1 ++ (X ++ F2)).Perm ((F1 ++ (Y ++ F2)) ++ [e]) := by
  refine (List.Perm.append_left F1 (List.Perm.append_right F2 h)).trans ?_
  rw [List.append_assoc Y [e] F2]
  refine (List.Perm.append_left F1 (List.Perm.append_left Y
    (@List.perm_append_comm _ [e] F2))).trans ?_
  rw [show F1 ++ (Y ++ (F2 ++ [e])) = (F1 ++ (Y ++ F2)) ++ [e] by
    simp [List.append_assoc]]

/-- Merging a single-entry mapping when the key is fresh. -/
lemma deep_merge_single_none (t : PObj) (k : Str) (v : PVal)
    (h : getVal t k = none) :
    deep_merge t (PObj.cons k v PObj.nil) = setKey t k v := by
  rw [deep_merge_single, h]

/-- Merging a single-entry mapping when the key is present. -/
lemma deep_merge_single_some (t : PObj) (k : Str) (v w : PVal)
    (h : getVal t k = some w) :
    deep_merge t (PObj.cons k v PObj.nil) = setKey t k (mergeVal w v) := by
  rw [deep_merge_single, h]

/-- Key merge lemma: deep-merging the singleton chain of a dotted key
that is prefix-free with respect to every existing leaf path adds
exactly that one leaf, up to permutation of the leaf list. -/
lemma merge_chain : ∀ (tl : List Str) (hd : Str) (t : PObj) (n : Int),
    (∀ p ∈ flattenSeg t, ¬ (p.1 <+: hd :: tl) ∧ ¬ ((hd :: tl) <+: p.1)) →
    (flattenSeg (deep_merge t
      (PObj.cons hd (chainVal tl (PVal.prim n)) PObj.nil))).Perm
      (flattenSeg t ++ [(hd :: tl, PVal.prim n)]) := by
  intro tl
  induction tl with
  | nil =>
    intro hd t n hfree
    rcases hg : getVal t hd with - | w
    · rw [deep_merge_single_none t hd _ hg, flattenSeg_setKey_none t hd _ hg]
      exact List.Perm.refl _
    · rcases w with n2 | o
      · exfalso
        rcases flattenSeg_setKey_some t hd _ hg with ⟨F1, F2, hsplit, -⟩
        have hmem : ([hd], PVal.prim n2) ∈ flattenSeg t := by
          rw [hsplit]
          exact List.mem_append.mpr (Or.inr (List.mem_append.mpr
            (Or.inl (by simp [flattenVal]))))
        exact (hfree _ hmem).1 (List.prefix_refl _)
      · rcases flattenSeg_setKey_some t hd _ hg with ⟨F1, F2, hsplit, hset⟩
        rw [deep_merge_single_some t hd _ _ hg, hset]
        have ho : flattenSeg o = [] := by
          rw [List.eq_nil_iff_forall_not_mem]
          intro p hp
          have hmem : (hd :: p.1, p.2) ∈ flattenSeg t := by
            rw [hsplit]
            refine List.mem_append.mpr (Or.inr (List.mem_append.mpr (Or.inl ?_)))
            simp only [flattenVal]
            exact List.mem_map.mpr ⟨p, hp, rfl⟩
          exact (hfree _ hmem).2 (List.cons_prefix_cons.mpr ⟨rfl, List.nil_prefix⟩)
        rw [hsplit]
        simp only [flattenVal, ho, List.map_nil, chainVal, mergeVal]
        exact perm_middle_snoc F1 F2 [([hd], PVal.prim n)] [] _ (List.Perm.refl _)
  | cons s tl ih =>
    intro hd t n hfree
    rcases hg : getVal t hd with - | w
    · rw [deep_merge_single_none t hd _ hg, flattenSeg_setKey_none t hd _ hg,
        flattenVal_chainVal]
    · rcases w with n2 | o
      · exfalso
        rcases flattenSeg_setKey_some t hd _ hg with ⟨F1, F2, hsplit, -⟩
        have hmem : ([hd], PVal.prim n2) ∈ flattenSeg t := by
          rw [hsplit]
          exact List.mem_append.mpr (Or.inr (List.mem_append.mpr
            (Or.inl (by simp [flattenVal]))))
        exact (hfree _ hmem).1 (List.cons_prefix_cons.mpr ⟨rfl, List.nil_prefix⟩)
      · rcases flattenSeg_setKey_some t hd _ hg with ⟨F1, F2, hsplit, hset⟩
        rw [deep_merge_single_some t hd _ _ hg, hset]
        have hfree2 : ∀ p ∈ flattenSeg o,
            ¬ (p.1 <+: s :: tl) ∧ ¬ ((s :: tl) <+: p.1) := by
          intro p hp
          have hmem : (hd :: p.1, p.2) ∈ flattenSeg t := by
            rw [hsplit]
            refine List.mem_append.mpr (Or.inr (List.mem_append.mpr (Or.inl ?_)))
            simp only [flattenVal]
            exact List.mem_map.mpr ⟨p, hp, rfl⟩
          have h := hfree _ hmem
          exact ⟨fun hpre => h.1 (List.cons_prefix_cons.mpr ⟨rfl, hpre⟩),
                 fun hpre => h.2 (List.cons_prefix_cons.mpr ⟨rfl, hpre⟩)⟩
        have hperm := ih s o n hfree2
        rw [hsplit]
        simp only [chainVal, mergeVal, flattenVal]
        refine perm_middle_snoc F1 F2 _ _ _ ?_
        have hmapped := hperm.map (fun p => (hd :: p.1, p.2))
        simpa using hmapped

/-- Folding prefix-free scalar-valued flat keys into an accumulator adds
exactly their leaves, up to permutation. -/
lemma prefs_go_perm : ∀ (m acc : PObj),
    FlatPrim m → NoPrefixKeys m →
    (∀ p ∈ flattenSeg acc, ∀ q ∈ PObj.toList m,
      ¬ (p.1 <+: segments q.1) ∧ ¬ (segments q.1 <+: p.1)) →
    (flattenSeg (prefs_to_json_go acc m)).Perm
      (flattenSeg acc ++ (PObj.toList m).map (fun q => (segments q.1, q.2))) := by
  intro m
  induction m using PObj.inductionOn with
  | nil =>
    intro acc h1 h2 h3
    simp [prefs_to_json_go, PObj.toList, flattenSeg]
  | cons k v rest ih =>
    intro acc hfp hnp hacc
    have hv := hfp ⟨k, v⟩ (by simp [PObj.toList])
    rcases v with n | o
    · have hnp2 := hnp
      simp only [NoPrefixKeys, PObj.toList, List.pairwise_cons] at hnp2
      rcases hs : segments k with - | ⟨hd, tl⟩
      · exact absurd hs (splitChar_ne_nil '.' k)
      · simp only [prefs_to_json_go]
        rw [undot_key_eq_chain k (PVal.prim n) hd tl hs]
        have hfree1 : ∀ p ∈ flattenSeg acc,
            ¬ (p.1 <+: hd :: tl) ∧ ¬ ((hd :: tl) <+: p.1) := by
          intro p hp
          have := hacc p hp ⟨k, PVal.prim n⟩ (by simp [PObj.toList])
          rwa [hs] at this
        have hm := merge_chain tl hd acc n hfree1
        have hfp2 : FlatPrim rest := fun q hq =>
          hfp q (by simp only [PObj.toList, List.mem_cons]; exact Or.inr hq)
        have hnp3 : NoPrefixKeys rest := hnp2.2
        have hacc2 : ∀ p ∈ flattenSeg (deep_merge acc
            (PObj.cons hd (chainVal tl (PVal.prim n)) PObj.nil)),
            ∀ q ∈ PObj.toList rest,
            ¬ (p.1 <+: segments q.1) ∧ ¬ (segments q.1 <+: p.1) := by
          intro p hp q hq
          have hp2 := hm.mem_iff.mp hp
          rcases List.mem_append.mp hp2 with hp3 | hp3
          · exact hacc p hp3 q
              (by simp only [PObj.toList, List.mem_cons]; exact Or.inr hq)
          · have hp4 : p = (hd :: tl, PVal.prim n) := by simpa using hp3
            subst hp4
            have hrel := hnp2.1 q hq
            rw [hs] at hrel
            exact hrel
        have hie := ih (deep_merge acc
          (PObj.cons hd (chainVal tl (PVal.prim n)) PObj.nil)) hfp2 hnp3 hacc2
        refine hie.trans ?_
        refine (List.Perm.append_right _ hm).trans ?_
        rw [List.append_assoc, List.singleton_append]
        simp only [PObj.toList, List.map_cons, hs]
        exact List.Perm.refl _
    · simp [PVal.isPrim] at hv

/-- Rejoining the segments of a key with dots recovers the key. -/
lemma joinWith_segments : ∀ k : Str, joinWith '.' (segments k) = k := by
  intro k
  induction k with
  | nil => rfl
  | cons c rest ih =>
    by_cases hc : c = '.'
    · subst hc
      simp only [segments, splitChar, if_pos rfl]
      rcases h : splitChar '.' rest with - | ⟨s0, ss⟩
      · exact absurd h (splitChar_ne_nil _ _)
      · simp only [joinWith, List.nil_append]
        have ih2 : joinWith '.' (s0 :: ss) = rest := by
          rw [← h]
          simpa [segments] using ih
        rw [ih2]
    · simp only [segments, splitChar, if_neg hc]
      rcases h : splitChar '.' rest with - | ⟨s0, ss⟩
      · exact absurd h (splitChar_ne_nil _ _)
      · have ih2 : joinWith '.' (s0 :: ss) = rest := by
          rw [← h]
          simpa [segments] using ih
        cases ss with
        | nil =>
          simp only [joinWith] at ih2 ⊢
          rw [ih2]
        | cons s1 ss2 =>
          simp only [joinWith] at ih2 ⊢
          rw [List.cons_append, ih2]

/-- Rejoining after splitting, mapped over a flat entry list, is the
identity. -/
lemma map_join_segments : ∀ (l : List (Str × PVal)),
    l.map (fun q => (joinWith '.' (segments q.1), q.2)) = l := by
  intro l
  induction l with
  | nil => rfl
  | cons q l ih => simp [ih, joinWith_segments]

/-- Claim C8: on flat preference mappings whose values are scalars and
whose dotted keys have no colliding prefixes (no key a dotted prefix of
another, no duplicate keys), flattening the nested tree built by
prefs_to_json recovers exactly the original flat mapping (as a mapping:
the entry lists are permutations of each other), and prefs_to_json is
injective on such mappings up to reordering of entries. -/
theorem C8_flatten_left_inverse (m : PObj) (hprim : FlatPrim m)
    (hfree : NoPrefixKeys m) :
    (flatten (prefs_to_json m)).Perm (PObj.toList m) ∧
    (∀ m2, FlatPrim m2 → NoPrefixKeys m2 →
      prefs_to_json m = prefs_to_json m2 →
      (PObj.toList m).Perm (PObj.toList m2)) := by
  have main : ∀ m1, FlatPrim m1 → NoPrefixKeys m1 →
      (flatten (prefs_to_json m1)).Perm (PObj.toList m1) := by
    intro m1 h1 h2
    have hgo := prefs_go_perm m1 PObj.nil h1 h2
      (by intro p hp; simp [flattenSeg] at hp)
    have hmap := hgo.map (fun p => (joinWith '.' p.1, p.2))
    have hr : ((flattenSeg PObj.nil ++
        (PObj.toList m1).map (fun q => (segments q.1, q.2))).map
        (fun p => (joinWith '.' p.1, p.2))) = PObj.toList m1 := by
      simp only [flattenSeg, List.nil_append, List.map_map]
      simpa [Function.comp] using map_join_segments (PObj.toList m1)
    rw [hr] at hmap
    simpa only [flatten] using hmap
  refine ⟨main m hprim hfree, ?_⟩
  intro m2 h1 h2 heq
  have a1 := main m hprim hfree
  have a2 := main m2 h1 h2
  rw [show flatten (prefs_to_json m) = flatten (prefs_to_json m2) from
    by rw [heq]] at a1
  exact a1.symm.trans a2

/-- Claim C8, witness: the two-key prefix-free mapping a.b, a.c
round-trips through the nested tree. -/
theorem C8_witness :
    (flatten (prefs_to_json prefsC8)).Perm (PObj.toList prefsC8) :=
  (C8_flatten_left_inverse prefsC8 (by unfold FlatPrim; decide)
    (by unfold NoPrefixKeys; decide)).1
